import Mathlib

/-!
Shallow embedding of the algebrain dual-phase recurrent block
(`sample.go`: `Sample`, `oneHotVector`, `Block`, `blockState`,
`blockResult`, `emptyResult`, `Block.ApplyBlock`, `Block.ApplyBlockR`,
`blockResult.PropagateGradient`, `Block.Query`).

Machine `float32` vectors are modelled as lists of rationals; a Go
panic is modelled as `Option.none`.  The recurrent sub-cells
(`rnn.Block` values) are external collaborators in the source, so they
are modelled as records of step functions.
-/

/-- A numeric vector (Go `linalg.Vector` / `anyvec.Vector`). -/
abbrev Vec := List ℚ

/-- Source constant `CharCount = 128`. -/
def CharCount : Nat := 128

/-- Source constant `Terminator = 0`. -/
def Terminator : Nat := 0

/-- Source constant `maxResponseLen = 1000`. -/
def maxResponseLen : Nat := 1000

/-- Source `oneHotVector`: panics (here `none`) when the rune is not in
`[0, CharCount)`; otherwise a zero vector of length `CharCount` with a
single `1` at the rune's index. -/
def oneHotVector (x : Int) : Option Vec :=
  if (CharCount : Int) ≤ x ∨ x < 0 then none
  else some ((List.range CharCount).map fun (i : Nat) => if (i : Int) = x then (1 : ℚ) else 0)

/-- Modelled from the spec: the Batch Partitioner's `split`
(`splitReadWrite` in the repository, not under `src/`): partitions a
batch by the boolean phase flags, the `true`-flagged items first,
preserving relative order within each partition. -/
def splitReadWrite {T : Type} : List Bool → List T → List T × List T
  | f :: fs, x :: xs =>
    let p := splitReadWrite fs xs
    if f then (x :: p.1, p.2) else (p.1, x :: p.2)
  | _, _ => ([], [])

/-- Modelled from the spec: the Batch Partitioner's `join`
(`joinReadWrite` in the repository, not under `src/`): rebuilds the
batch in original order from the two phase-ordered partitions. -/
def joinReadWrite {T : Type} : List Bool → List T → List T → List T
  | true :: fs, x :: rs, ws => x :: joinReadWrite fs rs ws
  | true :: fs, [], ws => joinReadWrite fs [] ws
  | false :: fs, rs, x :: ws => x :: joinReadWrite fs rs ws
  | false :: fs, rs, [] => joinReadWrite fs rs []
  | [], _, _ => []

/-- The maximum entry of a vector (`0` for the empty vector). -/
def maxVal : List ℚ → ℚ
  | [] => 0
  | [x] => x
  | x :: y :: t => max x (maxVal (y :: t))

/-- Modelled from the spec: the codec's `decode` / `anyvec` `Max`:
index of the maximum component, ties broken by lowest index. -/
def argmax : List ℚ → Nat
  | [] => 0
  | [_] => 0
  | x :: y :: t => if x < maxVal (y :: t) then argmax (y :: t) + 1 else 0

/-- Source `Sample` (query and expected response, as rune codes). -/
structure Sample where
  Query : List Int
  Response : List Int

/-- The encoding loop of the source `Sample.InputSequence`: one-hot
encode each character in order; the encoder's panic (modelled `none`)
aborts the whole sequence. -/
def encodeSeq : List Int → Option (List Vec)
  | [] => some []
  | c :: t =>
    match oneHotVector c with
    | none => none
    | some v => (encodeSeq t).map (fun vs => v :: vs)

/-- Source `Sample.InputSequence`. -/
def Sample.InputSequence (s : Sample) : Option (List Vec) :=
  encodeSeq s.Query

/-- Modelled from the spec: the result of one sub-cell step
(`rnn.BlockResult`, an external collaborator): output vectors, next
states, and the reverse-mode gradient propagation of that step. -/
structure BlockResult (σ γ : Type) where
  Outputs : List Vec
  States : List σ
  PropagateGradient : List Vec → List γ → List γ

/-- Modelled from the spec: the forward-mode result of one sub-cell
step (`rnn.BlockRResult`). -/
structure BlockRResult (ρ δ : Type) where
  Outputs : List Vec
  ROutputs : List Vec
  RStates : List ρ
  PropagateRGradient : List Vec → List Vec → List δ → List δ

/-- Source `emptyResult` (its `rnn.BlockResult` method set): no
outputs, no states, and no gradient. -/
def emptyResult {σ γ : Type} : BlockResult σ γ :=
  { Outputs := [], States := [], PropagateGradient := fun _ _ => [] }

/-- Source `emptyResult` (its `rnn.BlockRResult` method set). -/
def emptyResultR {ρ δ : Type} : BlockRResult ρ δ :=
  { Outputs := [], ROutputs := [], RStates := [],
    PropagateRGradient := fun _ _ _ => [] }

/-- Modelled from the spec: a recurrent sub-cell (`rnn.Block`, an
external collaborator): start states and the two step functions.
A forward-mode input carries a value and its directional derivative. -/
structure Cell (σ γ ρ δ : Type) where
  Start : σ
  StartR : ρ
  ApplyBlock : List σ → List Vec → BlockResult σ γ
  ApplyBlockR : List ρ → List (Vec × Vec) → BlockRResult ρ δ

/-- Source `Block`: the dual-phase block owning a reader and a writer
sub-cell. -/
structure Block (σ γ ρ δ : Type) where
  Reader : Cell σ γ ρ δ
  Writer : Cell σ γ ρ δ

/-- Source `blockState`: per-sequence phase tag and inner state. -/
structure blockState (σ : Type) where
  Reading : Bool
  State : σ
deriving DecidableEq

/-- Source `blockRState`. -/
structure blockRState (ρ : Type) where
  Reading : Bool
  State : ρ
deriving DecidableEq

/-- Source `blockResult` (data fields). -/
structure blockResult (σ γ : Type) where
  Reading : List Bool
  ReadRes : BlockResult σ γ
  WriteRes : BlockResult σ γ
  OutVecs : List Vec
  OutStates : List (blockState σ)

/-- Source `blockRResult` (data fields). -/
structure blockRResult (ρ δ : Type) where
  Reading : List Bool
  ReadRes : BlockRResult ρ δ
  WriteRes : BlockRResult ρ δ
  OutVecs : List Vec
  ROutVecs : List Vec
  OutStates : List (blockRState ρ)

/-- Source `Block.StartState`: `Reading` wrapping the reader's start
state. -/
def Block.StartState {σ γ ρ δ : Type} (b : Block σ γ ρ δ) : blockState σ :=
  { Reading := true, State := b.Reader.Start }

/-- Source `Block.StartRState`. -/
def Block.StartRState {σ γ ρ δ : Type} (b : Block σ γ ρ δ) : blockRState ρ :=
  { Reading := true, State := b.Reader.StartR }

/-- The next-state loop at the end of the source `Block.ApplyBlock`:
`reading := x.Reading && in[i].Output()[Terminator] == 0` paired with
the joined inner state at the same index. -/
def zipNext {σ : Type} : List (blockState σ) → List Vec → List σ → List (blockState σ)
  | x :: s, v :: inp, st :: sts =>
    { Reading := x.Reading && decide (v.getD Terminator 0 = 0), State := st } ::
      zipNext s inp sts
  | _, _, _ => []

/-- Source `Block.ApplyBlock`: split the batch by phase, run each
non-empty partition through its sub-cell (substituting `emptyResult`
for an empty partition), join outputs and states back into batch
order, and compute each sequence's next phase. -/
def Block.ApplyBlock {σ γ ρ δ : Type} (b : Block σ γ ρ δ)
    (s : List (blockState σ)) (inp : List Vec) : blockResult σ γ :=
  let reading := s.map (fun x => x.Reading)
  let internalS := s.map (fun x => x.State)
  let rw := splitReadWrite reading internalS
  let rwIn := splitReadWrite reading inp
  let readRes := if 0 < rwIn.1.length then b.Reader.ApplyBlock rw.1 rwIn.1 else emptyResult
  let writeRes := if 0 < rwIn.2.length then b.Writer.ApplyBlock rw.2 rwIn.2 else emptyResult
  { Reading := reading
    ReadRes := readRes
    WriteRes := writeRes
    OutVecs := joinReadWrite reading readRes.Outputs writeRes.Outputs
    OutStates := zipNext s inp (joinReadWrite reading readRes.States writeRes.States) }

/-- The next-state loop at the end of the source `Block.ApplyBlockR`
(the terminator test reads the value component of the input). -/
def zipNextR {ρ : Type} : List (blockRState ρ) → List (Vec × Vec) → List ρ → List (blockRState ρ)
  | x :: s, v :: inp, st :: sts =>
    { Reading := x.Reading && decide (v.1.getD Terminator 0 = 0), State := st } ::
      zipNextR s inp sts
  | _, _, _ => []

/-- Source `Block.ApplyBlockR`: structurally identical to
`Block.ApplyBlock` on the forward-mode types. -/
def Block.ApplyBlockR {σ γ ρ δ : Type} (b : Block σ γ ρ δ)
    (s : List (blockRState ρ)) (inp : List (Vec × Vec)) : blockRResult ρ δ :=
  let reading := s.map (fun x => x.Reading)
  let internalS := s.map (fun x => x.State)
  let rw := splitReadWrite reading internalS
  let rwIn := splitReadWrite reading inp
  let readRes := if 0 < rwIn.1.length then b.Reader.ApplyBlockR rw.1 rwIn.1 else emptyResultR
  let writeRes := if 0 < rwIn.2.length then b.Writer.ApplyBlockR rw.2 rwIn.2 else emptyResultR
  { Reading := reading
    ReadRes := readRes
    WriteRes := writeRes
    OutVecs := joinReadWrite reading readRes.Outputs writeRes.Outputs
    ROutVecs := joinReadWrite reading readRes.ROutputs writeRes.ROutputs
    OutStates := zipNextR s inp (joinReadWrite reading readRes.RStates writeRes.RStates) }

/-- Source `blockResult.PropagateGradient`: split the upstream
gradients by the recorded flags, propagate through each sub-result,
and join the returned state gradients back into batch order. -/
def blockResult.PropagateGradient {σ γ : Type} (r : blockResult σ γ)
    (u : List Vec) (sg : List γ) : List γ :=
  let us := splitReadWrite r.Reading u
  let ss := splitReadWrite r.Reading sg
  joinReadWrite r.Reading
    (r.ReadRes.PropagateGradient us.1 ss.1)
    (r.WriteRes.PropagateGradient us.2 ss.2)

/-- Source `blockRResult.PropagateRGradient`. -/
def blockRResult.PropagateRGradient {ρ δ : Type} (r : blockRResult ρ δ)
    (u uR : List Vec) (sg : List δ) : List δ :=
  let us := splitReadWrite r.Reading u
  let urs := splitReadWrite r.Reading uR
  let ss := splitReadWrite r.Reading sg
  joinReadWrite r.Reading
    (r.ReadRes.PropagateRGradient us.1 urs.1 ss.1)
    (r.WriteRes.PropagateRGradient us.2 urs.2 ss.2)

/-- A run of repeated `Block.ApplyBlock` steps: thread the output
states of each step into the next. -/
def Block.run {σ γ ρ δ : Type} (b : Block σ γ ρ δ)
    (s : List (blockState σ)) : List (List Vec) → List (blockState σ)
  | [] => s
  | v :: rest => Block.run b ((b.ApplyBlock s v).OutStates) rest

/-- Modelled from the spec: the Runner's single-sequence step
(`rnn.Runner.StepTime`, an external collaborator): apply the block to
a batch of one and return that sequence's next state and output. -/
def Block.StepTime {σ γ ρ δ : Type} (b : Block σ γ ρ δ)
    (st : blockState σ) (v : Vec) : blockState σ × Vec :=
  let r := b.ApplyBlock [st] [v]
  (r.OutStates.getD 0 st, r.OutVecs.getD 0 [])

/-- The query-feeding loop of the source `Block.Query`: a character is
skipped when `x < 0 || x > 128`, otherwise it is one-hot encoded
(panicking, i.e. `none`, when the encoder rejects it) and stepped. -/
def feedQuery {σ γ ρ δ : Type} (b : Block σ γ ρ δ) :
    blockState σ → List Int → Option (blockState σ)
  | st, [] => some st
  | st, x :: xs =>
    if x < 0 ∨ 128 < x then feedQuery b st xs
    else
      match oneHotVector x with
      | none => none
      | some v => feedQuery b (b.StepTime st v).1 xs

/-- The decode loop of the source `Block.Query`, with an explicit fuel
that dominates the loop's own cap (each iteration that does not break
appends one symbol, and the loop breaks once `len(res) >=
maxResponseLen`, so `maxResponseLen + 1` iterations always suffice). -/
def queryLoopF {σ γ ρ δ : Type} (b : Block σ γ ρ δ) :
    Nat → blockState σ → Nat → List Nat → Option (List Nat)
  | 0, _, _, res => some res
  | fuel + 1, st, lastOut, res =>
    match oneHotVector (lastOut : Int) with
    | none => none
    | some v =>
      let p := b.StepTime st v
      let next := argmax p.2
      if next = 0 ∨ maxResponseLen ≤ res.length then some res
      else queryLoopF b fuel p.1 next (res ++ [next])

/-- Source `Block.Query`: feed the query characters (with the skip
guard), feed one terminator, then run the decode loop starting from
`lastOut = Terminator` and an empty response. -/
def Block.Query {σ γ ρ δ : Type} (b : Block σ γ ρ δ) (q : List Int) :
    Option (List Nat) :=
  match feedQuery b b.StartState q with
  | none => none
  | some st =>
    match oneHotVector ((Terminator : Nat) : Int) with
    | none => none
    | some v => queryLoopF b (maxResponseLen + 1) (b.StepTime st v).1 Terminator []

/-- Modelled from the spec: the decoded response as the spec's §4.6
words describe it — repeatedly feed back the previously decoded
symbol, collect each decoded symbol, and stop at a decoded Terminator
or after the cap, excluding the terminating symbol. -/
def decodeSpec {σ γ ρ δ : Type} (b : Block σ γ ρ δ) :
    blockState σ → Nat → Nat → List Nat
  | _, _, 0 => []
  | st, lastOut, n + 1 =>
    let p := b.StepTime st ((oneHotVector (lastOut : Int)).getD [])
    let next := argmax p.2
    if next = 0 then [] else next :: decodeSpec b p.1 next n

/-- The Recurrent Cell contract of spec §6: one step over a batch
returns one output per input, one state per input state, and its
gradient propagation returns one state gradient per input state. -/
def Cell.Good {σ γ ρ δ : Type} (c : Cell σ γ ρ δ) : Prop :=
  ∀ s inp, s.length = inp.length →
    (c.ApplyBlock s inp).Outputs.length = inp.length ∧
    (c.ApplyBlock s inp).States.length = s.length ∧
    ∀ u g, u.length = inp.length → g.length = s.length →
      ((c.ApplyBlock s inp).PropagateGradient u g).length = s.length

/-- A concrete contract-obeying cell used to instantiate theorems:
echoes its inputs as outputs, keeps its states, and echoes upstream
state gradients. -/
def idCell : Cell Unit Unit Unit Unit :=
  { Start := ()
    StartR := ()
    ApplyBlock := fun s inp =>
      { Outputs := inp, States := s, PropagateGradient := fun _ g => g }
    ApplyBlockR := fun s inp =>
      { Outputs := inp.map (fun p => p.1), ROutputs := inp.map (fun p => p.2),
        RStates := s, PropagateRGradient := fun _ _ g => g } }

/-- A concrete block built from two `idCell`s. -/
def bUnit : Block Unit Unit Unit Unit := { Reader := idCell, Writer := idCell }

lemma idCell_good : Cell.Good idCell := by
  intro s inp h
  refine ⟨rfl, rfl, ?_⟩
  intro u g hu hg
  simpa [idCell] using hg

/-- Rank of batch position `i` inside the reading partition: the
number of `true` flags strictly before `i`. -/
def rankT : List Bool → Nat → Nat
  | [], _ => 0
  | _ :: _, 0 => 0
  | b :: fs, i + 1 => rankT fs i + (if b then 1 else 0)

/-- Rank of batch position `i` inside the writing partition. -/
def rankF : List Bool → Nat → Nat
  | [], _ => 0
  | _ :: _, 0 => 0
  | b :: fs, i + 1 => rankF fs i + (if b then 0 else 1)

lemma splitReadWrite_length {T : Type} :
    ∀ (f : List Bool) (x : List T), f.length = x.length →
      (splitReadWrite f x).1.length = (f.filter id).length ∧
      (splitReadWrite f x).2.length = (f.filter (fun b => !b)).length
  | [], [], _ => by simp [splitReadWrite]
  | b :: fs, x :: xs, h => by
    have ih := splitReadWrite_length fs xs (by simpa using h)
    cases b <;> simp [splitReadWrite, List.filter, ih.1, ih.2]

lemma splitReadWrite_filter {T : Type} :
    ∀ (f : List Bool) (x : List T),
      (splitReadWrite f x).1 = ((f.zip x).filter (fun p => p.1)).map (fun p => p.2) ∧
      (splitReadWrite f x).2 = ((f.zip x).filter (fun p => !p.1)).map (fun p => p.2)
  | [], x => by simp [splitReadWrite]
  | b :: fs, [] => by simp [splitReadWrite]
  | b :: fs, x :: xs => by
    have ih := splitReadWrite_filter fs xs
    cases b <;>
      simp [splitReadWrite, List.zip, List.filter, ih.1, ih.2]

lemma join_split {T : Type} :
    ∀ (f : List Bool) (x : List T), f.length = x.length →
      joinReadWrite f (splitReadWrite f x).1 (splitReadWrite f x).2 = x
  | [], [], _ => rfl
  | b :: fs, x :: xs, h => by
    have ih := join_split fs xs (by simpa using h)
    cases b <;> simp [splitReadWrite] <;>
      cases hs : splitReadWrite fs xs <;>
      simp [joinReadWrite, hs ▸ ih]

lemma joinReadWrite_length {T : Type} :
    ∀ (f : List Bool) (a b : List T),
      a.length = (f.filter id).length →
      b.length = (f.filter (fun c => !c)).length →
      (joinReadWrite f a b).length = f.length
  | [], a, b, ha, hb => by simp [joinReadWrite]
  | true :: fs, a, b, ha, hb => by
    match a, ha with
    | a0 :: as, ha =>
      simp only [joinReadWrite, List.length_cons]
      have := joinReadWrite_length fs as b (by simpa [List.filter] using ha)
        (by simpa [List.filter] using hb)
      omega
  | false :: fs, a, b, ha, hb => by
    match b, hb with
    | b0 :: bs, hb =>
      simp only [joinReadWrite, List.length_cons]
      have := joinReadWrite_length fs a bs (by simpa [List.filter] using ha)
        (by simpa [List.filter] using hb)
      omega

lemma joinReadWrite_getElem? {T : Type} :
    ∀ (f : List Bool) (a b : List T),
      a.length = (f.filter id).length →
      b.length = (f.filter (fun c => !c)).length →
      ∀ i, (joinReadWrite f a b)[i]? =
        match f[i]? with
        | some true => a[rankT f i]?
        | some false => b[rankF f i]?
        | none => none
  | [], a, b, ha, hb, i => by simp [joinReadWrite]
  | true :: fs, a, b, ha, hb, i => by
    match a, ha with
    | a0 :: as, ha =>
      have ih := joinReadWrite_getElem? fs as b
        (by simpa [List.filter] using ha) (by simpa [List.filter] using hb)
      cases i with
      | zero => simp [joinReadWrite, rankT]
      | succ j => simpa [joinReadWrite, rankT] using ih j
  | false :: fs, a, b, ha, hb, i => by
    match b, hb with
    | b0 :: bs, hb =>
      have ih := joinReadWrite_getElem? fs a bs
        (by simpa [List.filter] using ha) (by simpa [List.filter] using hb)
      cases i with
      | zero => simp [joinReadWrite, rankF]
      | succ j => simpa [joinReadWrite, rankF] using ih j

lemma splitReadWrite_fst_getElem? {T : Type} :
    ∀ (f : List Bool) (x : List T), f.length = x.length →
      ∀ i, f[i]? = some true → (splitReadWrite f x).1[rankT f i]? = x[i]?
  | [], [], _, i, hf => by simp at hf
  | b :: fs, x :: xs, h, 0, hf => by
    have hb : b = true := by simpa using hf
    subst hb
    simp [splitReadWrite, rankT]
  | b :: fs, x :: xs, h, i + 1, hf => by
    have ih := splitReadWrite_fst_getElem? fs xs (by simpa using h) i (by simpa using hf)
    cases b <;> simp [splitReadWrite, rankT, ih]

lemma splitReadWrite_snd_getElem? {T : Type} :
    ∀ (f : List Bool) (x : List T), f.length = x.length →
      ∀ i, f[i]? = some false → (splitReadWrite f x).2[rankF f i]? = x[i]?
  | [], [], _, i, hf => by simp at hf
  | b :: fs, x :: xs, h, 0, hf => by
    have hb : b = false := by simpa using hf
    subst hb
    simp [splitReadWrite, rankF]
  | b :: fs, x :: xs, h, i + 1, hf => by
    have ih := splitReadWrite_snd_getElem? fs xs (by simpa using h) i (by simpa using hf)
    cases b <;> simp [splitReadWrite, rankF, ih]

lemma splitReadWrite_fst_allFalse {T : Type} :
    ∀ (f : List Bool) (x : List T), (∀ b ∈ f, b = false) →
      (splitReadWrite f x).1 = []
  | [], x, _ => by cases x <;> rfl
  | b :: fs, [], _ => rfl
  | b :: fs, x :: xs, h => by
    have hb : b = false := h b (by simp)
    subst hb
    simpa [splitReadWrite] using splitReadWrite_fst_allFalse fs xs (by
      intro c hc; exact h c (by simp [hc]))

lemma splitReadWrite_snd_allTrue {T : Type} :
    ∀ (f : List Bool) (x : List T), (∀ b ∈ f, b = true) →
      (splitReadWrite f x).2 = []
  | [], x, _ => by cases x <;> rfl
  | b :: fs, [], _ => rfl
  | b :: fs, x :: xs, h => by
    have hb : b = true := h b (by simp)
    subst hb
    simpa [splitReadWrite] using splitReadWrite_snd_allTrue fs xs (by
      intro c hc; exact h c (by simp [hc]))

lemma splitReadWrite_allTrue {T : Type} :
    ∀ (f : List Bool) (x : List T), (∀ b ∈ f, b = true) → f.length = x.length →
      splitReadWrite f x = (x, [])
  | [], [], _, _ => rfl
  | b :: fs, x :: xs, h, hl => by
    have hb : b = true := h b (by simp)
    subst hb
    have ih := splitReadWrite_allTrue fs xs
      (by intro c hc; exact h c (by simp [hc])) (by simpa using hl)
    simp [splitReadWrite, ih]

lemma joinReadWrite_allTrue {T : Type} :
    ∀ (f : List Bool) (a : List T), (∀ b ∈ f, b = true) → a.length = f.length →
      joinReadWrite f a [] = a
  | [], [], _, _ => rfl
  | b :: fs, a0 :: as, h, hl => by
    have hb : b = true := h b (by simp)
    subst hb
    have ih := joinReadWrite_allTrue fs as
      (by intro c hc; exact h c (by simp [hc])) (by simpa using hl)
    simp [joinReadWrite, ih]

lemma zipNext_getElem? {σ : Type} :
    ∀ (s : List (blockState σ)) (inp : List Vec) (sts : List σ) (i : Nat),
      (zipNext s inp sts)[i]? =
        s[i]?.bind fun x => inp[i]?.bind fun v => sts[i]?.map fun st =>
          { Reading := x.Reading && decide (v.getD Terminator 0 = 0), State := st }
  | [], inp, sts, i => by simp [zipNext]
  | _ :: _, [], sts, i => by simp [zipNext]
  | _ :: _, _ :: _, [], i => by simp [zipNext]
  | x :: s, v :: inp, st :: sts, 0 => by simp [zipNext]
  | x :: s, v :: inp, st :: sts, i + 1 => by
    simpa [zipNext] using zipNext_getElem? s inp sts i

lemma zipNext_length {σ : Type} :
    ∀ (s : List (blockState σ)) (inp : List Vec) (sts : List σ),
      (zipNext s inp sts).length = min s.length (min inp.length sts.length)
  | [], inp, sts => by simp [zipNext]
  | _ :: _, [], sts => by simp [zipNext]
  | _ :: _, _ :: _, [] => by simp [zipNext]
  | x :: s, v :: inp, st :: sts => by
    simp only [zipNext, List.length_cons, zipNext_length s inp sts]
    omega


lemma applyBlock_ReadRes_Outputs_length {σ γ ρ δ : Type} (b : Block σ γ ρ δ)
    (hR : Cell.Good b.Reader)
    (s : List (blockState σ)) (inp : List Vec) (hlen : inp.length = s.length) :
    (b.ApplyBlock s inp).ReadRes.Outputs.length =
      ((s.map fun x => x.Reading).filter id).length := by
  have hfS : (s.map fun x => x.Reading).length = (s.map fun x => x.State).length := by simp
  have hfI : (s.map fun x => x.Reading).length = inp.length := by simp [hlen]
  have hS := splitReadWrite_length (s.map fun x => x.Reading) (s.map fun x => x.State) hfS
  have hI := splitReadWrite_length (s.map fun x => x.Reading) inp hfI
  have hRlen : (splitReadWrite (s.map fun x => x.Reading) (s.map fun x => x.State)).1.length
      = (splitReadWrite (s.map fun x => x.Reading) inp).1.length := by rw [hS.1, hI.1]
  by_cases hr : 0 < (splitReadWrite (s.map fun x => x.Reading) inp).1.length
  · simp only [Block.ApplyBlock, if_pos hr]
    exact (hR _ _ hRlen).1.trans hI.1
  · simp only [Block.ApplyBlock, if_neg hr]
    simp only [emptyResult]
    rw [show ([] : List Vec).length = 0 from rfl, ← hI.1]
    omega

lemma applyBlock_WriteRes_Outputs_length {σ γ ρ δ : Type} (b : Block σ γ ρ δ)
    (hW : Cell.Good b.Writer)
    (s : List (blockState σ)) (inp : List Vec) (hlen : inp.length = s.length) :
    (b.ApplyBlock s inp).WriteRes.Outputs.length =
      ((s.map fun x => x.Reading).filter (fun c => !c)).length := by
  have hfS : (s.map fun x => x.Reading).length = (s.map fun x => x.State).length := by simp
  have hfI : (s.map fun x => x.Reading).length = inp.length := by simp [hlen]
  have hS := splitReadWrite_length (s.map fun x => x.Reading) (s.map fun x => x.State) hfS
  have hI := splitReadWrite_length (s.map fun x => x.Reading) inp hfI
  have hWlen : (splitReadWrite (s.map fun x => x.Reading) (s.map fun x => x.State)).2.length
      = (splitReadWrite (s.map fun x => x.Reading) inp).2.length := by rw [hS.2, hI.2]
  by_cases hw : 0 < (splitReadWrite (s.map fun x => x.Reading) inp).2.length
  · simp only [Block.ApplyBlock, if_pos hw]
    exact (hW _ _ hWlen).1.trans hI.2
  · simp only [Block.ApplyBlock, if_neg hw]
    simp only [emptyResult]
    rw [show ([] : List Vec).length = 0 from rfl, ← hI.2]
    omega

lemma applyBlock_ReadRes_States_length {σ γ ρ δ : Type} (b : Block σ γ ρ δ)
    (hR : Cell.Good b.Reader)
    (s : List (blockState σ)) (inp : List Vec) (hlen : inp.length = s.length) :
    (b.ApplyBlock s inp).ReadRes.States.length =
      ((s.map fun x => x.Reading).filter id).length := by
  have hfS : (s.map fun x => x.Reading).length = (s.map fun x => x.State).length := by simp
  have hfI : (s.map fun x => x.Reading).length = inp.length := by simp [hlen]
  have hS := splitReadWrite_length (s.map fun x => x.Reading) (s.map fun x => x.State) hfS
  have hI := splitReadWrite_length (s.map fun x => x.Reading) inp hfI
  have hRlen : (splitReadWrite (s.map fun x => x.Reading) (s.map fun x => x.State)).1.length
      = (splitReadWrite (s.map fun x => x.Reading) inp).1.length := by rw [hS.1, hI.1]
  by_cases hr : 0 < (splitReadWrite (s.map fun x => x.Reading) inp).1.length
  · simp only [Block.ApplyBlock, if_pos hr]
    exact (hR _ _ hRlen).2.1.trans hS.1
  · simp only [Block.ApplyBlock, if_neg hr]
    simp only [emptyResult]
    rw [show ([] : List σ).length = 0 from rfl, ← hI.1]
    omega

lemma applyBlock_WriteRes_States_length {σ γ ρ δ : Type} (b : Block σ γ ρ δ)
    (hW : Cell.Good b.Writer)
    (s : List (blockState σ)) (inp : List Vec) (hlen : inp.length = s.length) :
    (b.ApplyBlock s inp).WriteRes.States.length =
      ((s.map fun x => x.Reading).filter (fun c => !c)).length := by
  have hfS : (s.map fun x => x.Reading).length = (s.map fun x => x.State).length := by simp
  have hfI : (s.map fun x => x.Reading).length = inp.length := by simp [hlen]
  have hS := splitReadWrite_length (s.map fun x => x.Reading) (s.map fun x => x.State) hfS
  have hI := splitReadWrite_length (s.map fun x => x.Reading) inp hfI
  have hWlen : (splitReadWrite (s.map fun x => x.Reading) (s.map fun x => x.State)).2.length
      = (splitReadWrite (s.map fun x => x.Reading) inp).2.length := by rw [hS.2, hI.2]
  by_cases hw : 0 < (splitReadWrite (s.map fun x => x.Reading) inp).2.length
  · simp only [Block.ApplyBlock, if_pos hw]
    exact (hW _ _ hWlen).2.1.trans hS.2
  · simp only [Block.ApplyBlock, if_neg hw]
    simp only [emptyResult]
    rw [show ([] : List σ).length = 0 from rfl, ← hI.2]
    omega

lemma applyBlock_joined_states_length {σ γ ρ δ : Type} (b : Block σ γ ρ δ)
    (hR : Cell.Good b.Reader) (hW : Cell.Good b.Writer)
    (s : List (blockState σ)) (inp : List Vec) (hlen : inp.length = s.length) :
    (joinReadWrite (s.map fun x => x.Reading)
      (b.ApplyBlock s inp).ReadRes.States (b.ApplyBlock s inp).WriteRes.States).length
      = s.length := by
  have h := joinReadWrite_length (s.map fun x => x.Reading)
    (b.ApplyBlock s inp).ReadRes.States (b.ApplyBlock s inp).WriteRes.States
    (applyBlock_ReadRes_States_length b hR s inp hlen)
    (applyBlock_WriteRes_States_length b hW s inp hlen)
  simpa using h

lemma applyBlock_OutStates_eq {σ γ ρ δ : Type} (b : Block σ γ ρ δ)
    (s : List (blockState σ)) (inp : List Vec) :
    (b.ApplyBlock s inp).OutStates = zipNext s inp
      (joinReadWrite (s.map fun x => x.Reading)
        (b.ApplyBlock s inp).ReadRes.States (b.ApplyBlock s inp).WriteRes.States) := rfl

lemma applyBlock_OutStates_length {σ γ ρ δ : Type} (b : Block σ γ ρ δ)
    (hR : Cell.Good b.Reader) (hW : Cell.Good b.Writer)
    (s : List (blockState σ)) (inp : List Vec) (hlen : inp.length = s.length) :
    (b.ApplyBlock s inp).OutStates.length = s.length := by
  rw [applyBlock_OutStates_eq, zipNext_length,
    applyBlock_joined_states_length b hR hW s inp hlen, hlen]
  omega

lemma applyBlock_OutStates_getElem? {σ γ ρ δ : Type} (b : Block σ γ ρ δ)
    (hR : Cell.Good b.Reader) (hW : Cell.Good b.Writer)
    (s : List (blockState σ)) (inp : List Vec) (hlen : inp.length = s.length)
    (i : Nat) (x : blockState σ) (v : Vec)
    (hx : s[i]? = some x) (hv : inp[i]? = some v) :
    ∃ st, (b.ApplyBlock s inp).OutStates[i]? =
      some { Reading := x.Reading && decide (v.getD Terminator 0 = 0), State := st } := by
  have hi : i < s.length := (List.getElem?_eq_some.mp hx).1
  have hj : i < (joinReadWrite (s.map fun x => x.Reading)
      (b.ApplyBlock s inp).ReadRes.States (b.ApplyBlock s inp).WriteRes.States).length := by
    rw [applyBlock_joined_states_length b hR hW s inp hlen]
    exact hi
  refine ⟨(joinReadWrite (s.map fun x => x.Reading)
      (b.ApplyBlock s inp).ReadRes.States (b.ApplyBlock s inp).WriteRes.States)[i], ?_⟩
  rw [applyBlock_OutStates_eq, zipNext_getElem?, hx, hv,
    List.getElem?_eq_getElem hj]
  rfl

lemma oneHotVector_eq_none (x : Int) :
    oneHotVector x = none ↔ (x < 0 ∨ (CharCount : Int) ≤ x) := by
  unfold oneHotVector
  by_cases h : (CharCount : Int) ≤ x ∨ x < 0
  · rw [if_pos h]
    simp only [true_iff]
    tauto
  · rw [if_neg h]
    simp only [reduceCtorEq, false_iff]
    tauto

lemma oneHotVector_length (x : Int) (v : Vec) (h : oneHotVector x = some v) :
    v.length = CharCount := by
  unfold oneHotVector at h
  by_cases hc : (CharCount : Int) ≤ x ∨ x < 0
  · rw [if_pos hc] at h
    cases h
  · rw [if_neg hc] at h
    injection h with h
    subst h
    rw [List.length_map, List.length_range]

lemma oneHotVector_nat_some (n : Nat) (h : n < CharCount) :
    oneHotVector (n : Int) =
      some ((List.range CharCount).map fun (i : Nat) => if (i : Int) = (n : Int) then (1 : ℚ) else 0) := by
  unfold oneHotVector
  rw [if_neg]
  intro hc
  rcases hc with hc | hc <;> omega

/-- C8: the one-hot encoder fails exactly on symbols outside
`[0, CharCount)`, and otherwise returns a vector of length `CharCount`
whose entry at the symbol's index is `1` and whose other entries are
`0`. -/
theorem oneHotVector_spec (x : Int) :
    (oneHotVector x = none ↔ (x < 0 ∨ (CharCount : Int) ≤ x)) ∧
    ∀ v, oneHotVector x = some v → v.length = CharCount ∧
      ∀ i, i < CharCount → v[i]? = some (if (i : Int) = x then 1 else 0) := by
  refine ⟨oneHotVector_eq_none x, ?_⟩
  intro v hv
  refine ⟨oneHotVector_length x v hv, ?_⟩
  intro i hi
  unfold oneHotVector at hv
  by_cases h : (CharCount : Int) ≤ x ∨ x < 0
  · rw [if_pos h] at hv
    cases hv
  · rw [if_neg h] at hv
    injection hv with hv
    subst hv
    rw [List.getElem?_map, List.getElem?_range hi]
    rfl

/-- Witness for C8 at symbols `200` (rejected) and `65` (accepted). -/
theorem oneHotVector_spec_witness :
    oneHotVector 200 = none ∧ ((oneHotVector 65).getD []).length = CharCount := by
  constructor
  · exact (oneHotVector_spec 200).1.mpr (Or.inr (by decide))
  · exact ((oneHotVector_spec 65).2 ((oneHotVector 65).getD []) rfl).1

/-- C2: joining the two partitions produced by splitting reconstructs
the original batch, and the partitions are exactly the items with
`true` (resp. `false`) flags in their original relative order. -/
theorem split_join_inverse {T : Type} (f : List Bool) (x : List T)
    (h : f.length = x.length) :
    joinReadWrite f (splitReadWrite f x).1 (splitReadWrite f x).2 = x ∧
    (splitReadWrite f x).1 = ((f.zip x).filter (fun p => p.1)).map (fun p => p.2) ∧
    (splitReadWrite f x).2 = ((f.zip x).filter (fun p => !p.1)).map (fun p => p.2) :=
  ⟨join_split f x h, (splitReadWrite_filter f x).1, (splitReadWrite_filter f x).2⟩

/-- Witness for C2 on a concrete mixed-flag batch. -/
theorem split_join_inverse_witness :
    joinReadWrite [true, false, true]
        (splitReadWrite [true, false, true] [10, 20, 30]).1
        (splitReadWrite [true, false, true] [10, 20, 30]).2 = [10, 20, 30] ∧
    (splitReadWrite [true, false, true] [10, 20, 30]).1 =
      (([true, false, true].zip [10, 20, 30]).filter (fun p => p.1)).map (fun p => p.2) ∧
    (splitReadWrite [true, false, true] [10, 20, 30]).2 =
      (([true, false, true].zip [10, 20, 30]).filter (fun p => !p.1)).map (fun p => p.2) :=
  split_join_inverse [true, false, true] ([10, 20, 30] : List Nat) rfl

lemma encodeSeq_eq_none :
    ∀ (q : List Int), encodeSeq q = none ↔
      ∃ c ∈ q, c < 0 ∨ (CharCount : Int) ≤ c
  | [] => by simp [encodeSeq]
  | c :: t => by
    cases h : oneHotVector c with
    | none =>
      simp only [encodeSeq, h, List.mem_cons]
      constructor
      · intro _
        exact ⟨c, Or.inl rfl, (oneHotVector_eq_none c).mp h⟩
      · intro _
        trivial
    | some v =>
      have hc : ¬(c < 0 ∨ (CharCount : Int) ≤ c) := by
        intro hcc
        rw [(oneHotVector_eq_none c).mpr hcc] at h
        cases h
      have ih := encodeSeq_eq_none t
      simp only [encodeSeq, h, List.mem_cons]
      rcases hx : encodeSeq t with _ | w
      · simp only [Option.map_none', true_iff]
        obtain ⟨d, hd, hdp⟩ := ih.mp hx
        exact ⟨d, Or.inr hd, hdp⟩
      · simp only [Option.map_some', reduceCtorEq, false_iff]
        intro hex
        obtain ⟨d, hd, hdp⟩ := hex
        rcases hd with rfl | hd
        · exact absurd hdp hc
        · rw [ih.mpr ⟨d, hd, hdp⟩] at hx
          cases hx

/-- C10: `Sample.InputSequence` fails (the encoder panics) exactly
when the query holds a character outside `[0, CharCount)`; no
character is skipped. -/
theorem inputSequence_fail_iff (s : Sample) :
    s.InputSequence = none ↔ ∃ c ∈ s.Query, c < 0 ∨ (CharCount : Int) ≤ c :=
  encodeSeq_eq_none s.Query

/-- Witness for C10: a query holding character 200 makes the sample's
input sequence fail. -/
theorem inputSequence_fail_iff_witness :
    (Sample.mk [65, 200] []).InputSequence = none :=
  (inputSequence_fail_iff (Sample.mk [65, 200] [])).mpr
    ⟨200, by decide, Or.inr (by decide)⟩

/-- C1: the next phase of sequence `i` is Reading iff its current
phase is Reading and the Terminator component of its input is zero;
in particular a Reading sequence fed a non-zero Terminator component
is Writing at the next step. -/
theorem applyBlock_next_phase {σ γ ρ δ : Type} (b : Block σ γ ρ δ)
    (hR : Cell.Good b.Reader) (hW : Cell.Good b.Writer)
    (s : List (blockState σ)) (inp : List Vec) (i : Nat)
    (hlen : inp.length = s.length) (x : blockState σ) (v : Vec)
    (hx : s[i]? = some x) (hv : inp[i]? = some v) :
    ∃ y, (b.ApplyBlock s inp).OutStates[i]? = some y ∧
      (y.Reading = true ↔ (x.Reading = true ∧ v.getD Terminator 0 = 0)) ∧
      (x.Reading = true → v.getD Terminator 0 ≠ 0 → y.Reading = false) := by
  obtain ⟨st, hst⟩ := applyBlock_OutStates_getElem? b hR hW s inp hlen i x v hx hv
  refine ⟨_, hst, ?_, ?_⟩
  · simp [Bool.and_eq_true, decide_eq_true_iff]
  · intro h1 h2
    simp only [h1, Bool.true_and, decide_eq_false_iff_not]
    exact h2

/-- Witness for C1: one Reading sequence fed a non-zero Terminator
component is Writing afterwards. -/
theorem applyBlock_next_phase_witness :
    ((bUnit.ApplyBlock [{ Reading := true, State := () }] [[(1 : ℚ)]]).OutStates[0]?.map
      fun y => y.Reading) = some false := by
  obtain ⟨y, hy, hiff, himp⟩ := applyBlock_next_phase bUnit idCell_good idCell_good
    [{ Reading := true, State := () }] [[(1 : ℚ)]] 0 rfl
    { Reading := true, State := () } [(1 : ℚ)] rfl rfl
  rw [hy]
  simp [himp rfl (by decide)]

lemma run_append {σ γ ρ δ : Type} (b : Block σ γ ρ δ) :
    ∀ (l1 l2 : List (List Vec)) (s : List (blockState σ)),
      b.run s (l1 ++ l2) = b.run (b.run s l1) l2
  | [], l2, s => rfl
  | v :: t, l2, s => by
    simpa [Block.run] using run_append b t l2 (b.ApplyBlock s v).OutStates

lemma run_length {σ γ ρ δ : Type} (b : Block σ γ ρ δ)
    (hR : Cell.Good b.Reader) (hW : Cell.Good b.Writer) (n : Nat) :
    ∀ (l : List (List Vec)) (s : List (blockState σ)),
      s.length = n → (∀ v ∈ l, v.length = n) → (b.run s l).length = n
  | [], s, hs, _ => hs
  | v :: t, s, hs, hl => by
    have h1 : v.length = s.length := by
      rw [hs]
      exact hl v (by simp)
    have h2 := applyBlock_OutStates_length b hR hW s v h1
    simpa [Block.run] using
      run_length b hR hW n t (b.ApplyBlock s v).OutStates (h2.trans hs)
        (fun w hw => hl w (by simp [hw]))

lemma run_not_reading {σ γ ρ δ : Type} (b : Block σ γ ρ δ)
    (hR : Cell.Good b.Reader) (hW : Cell.Good b.Writer) (n : Nat) :
    ∀ (l : List (List Vec)) (s : List (blockState σ)) (i : Nat) (x : blockState σ),
      s.length = n → (∀ v ∈ l, v.length = n) →
      s[i]? = some x → x.Reading = false →
      ∃ y, (b.run s l)[i]? = some y ∧ y.Reading = false
  | [], s, i, x, _, _, hx, hxf => ⟨x, hx, hxf⟩
  | v :: t, s, i, x, hs, hl, hx, hxf => by
    have hlen : v.length = s.length := by
      rw [hs]
      exact hl v (by simp)
    have hi : i < s.length := (List.getElem?_eq_some.mp hx).1
    have hiv : i < v.length := by omega
    obtain ⟨st, hst⟩ := applyBlock_OutStates_getElem? b hR hW s v hlen i x v[i] hx
      (List.getElem?_eq_getElem hiv)
    have hst2 : (b.ApplyBlock s v).OutStates[i]? =
        some { Reading := false, State := st } := by
      rw [hst, hxf]
      rfl
    have hlen2 : (b.ApplyBlock s v).OutStates.length = n :=
      (applyBlock_OutStates_length b hR hW s v hlen).trans hs
    simpa [Block.run] using
      run_not_reading b hR hW n t (b.ApplyBlock s v).OutStates i
        { Reading := false, State := st } hlen2
        (fun w hw => hl w (by simp [hw])) hst2 rfl

/-- C3: in any run of repeated `Block.ApplyBlock` steps from
`Block.StartState`, once a sequence's phase is Writing it stays
Writing under all further inputs. -/
theorem phase_monotonic {σ γ ρ δ : Type} (b : Block σ γ ρ δ)
    (hR : Cell.Good b.Reader) (hW : Cell.Good b.Writer) (n : Nat)
    (l1 l2 : List (List Vec))
    (h1 : ∀ v ∈ l1, v.length = n) (h2 : ∀ v ∈ l2, v.length = n)
    (i : Nat) (x : blockState σ)
    (hx : (b.run (List.replicate n b.StartState) l1)[i]? = some x)
    (hxf : x.Reading = false) :
    ∃ y, (b.run (List.replicate n b.StartState) (l1 ++ l2))[i]? = some y ∧
      y.Reading = false := by
  rw [run_append]
  have hlen : (b.run (List.replicate n b.StartState) l1).length = n :=
    run_length b hR hW n l1 (List.replicate n b.StartState) (by simp) h1
  exact run_not_reading b hR hW n l2 (b.run (List.replicate n b.StartState) l1)
    i x hlen h2 hx hxf

/-- Witness for C3: after a terminator-carrying input the single
sequence is Writing, and stays Writing after a further zero input. -/
theorem phase_monotonic_witness :
    ∃ y, (bUnit.run (List.replicate 1 bUnit.StartState)
        ([[[(1 : ℚ)]]] ++ [[[(0 : ℚ)]]]))[0]? = some y ∧ y.Reading = false :=
  phase_monotonic bUnit idCell_good idCell_good 1 [[[(1 : ℚ)]]] [[[(0 : ℚ)]]]
    (by decide) (by decide) 0 { Reading := false, State := () } (by decide) rfl

/-- C5: an empty phase partition means the matching sub-cell is not
invoked (the step's result is independent of that cell and records
`emptyResult` for it), in both `ApplyBlock` and `ApplyBlockR`, and the
substituted empty result contributes no outputs, no states, and no
gradient. -/
theorem empty_partition_neutral {σ γ ρ δ : Type} (b : Block σ γ ρ δ)
    (s : List (blockState σ)) (inp : List Vec)
    (sR : List (blockRState ρ)) (inpR : List (Vec × Vec)) :
    ((splitReadWrite (s.map fun x => x.Reading) inp).1 = [] →
      (b.ApplyBlock s inp).ReadRes = emptyResult ∧
      ∀ c, ({ Reader := c, Writer := b.Writer } : Block σ γ ρ δ).ApplyBlock s inp
        = b.ApplyBlock s inp) ∧
    ((splitReadWrite (s.map fun x => x.Reading) inp).2 = [] →
      (b.ApplyBlock s inp).WriteRes = emptyResult ∧
      ∀ c, ({ Reader := b.Reader, Writer := c } : Block σ γ ρ δ).ApplyBlock s inp
        = b.ApplyBlock s inp) ∧
    ((splitReadWrite (sR.map fun x => x.Reading) inpR).1 = [] →
      (b.ApplyBlockR sR inpR).ReadRes = emptyResultR ∧
      ∀ c, ({ Reader := c, Writer := b.Writer } : Block σ γ ρ δ).ApplyBlockR sR inpR
        = b.ApplyBlockR sR inpR) ∧
    ((splitReadWrite (sR.map fun x => x.Reading) inpR).2 = [] →
      (b.ApplyBlockR sR inpR).WriteRes = emptyResultR ∧
      ∀ c, ({ Reader := b.Reader, Writer := c } : Block σ γ ρ δ).ApplyBlockR sR inpR
        = b.ApplyBlockR sR inpR) ∧
    ((emptyResult : BlockResult σ γ).Outputs = [] ∧
      (emptyResult : BlockResult σ γ).States = [] ∧
      (∀ u g, (emptyResult : BlockResult σ γ).PropagateGradient u g = []) ∧
      (emptyResultR : BlockRResult ρ δ).Outputs = [] ∧
      (emptyResultR : BlockRResult ρ δ).ROutputs = [] ∧
      (emptyResultR : BlockRResult ρ δ).RStates = [] ∧
      ∀ u uR g, (emptyResultR : BlockRResult ρ δ).PropagateRGradient u uR g = []) := by
  refine ⟨?_, ?_, ?_, ?_, rfl, rfl, fun u g => rfl, rfl, rfl, rfl, fun u uR g => rfl⟩
  · intro h
    constructor
    · simp [Block.ApplyBlock, h]
    · intro c
      simp [Block.ApplyBlock, h]
  · intro h
    constructor
    · simp [Block.ApplyBlock, h]
    · intro c
      simp [Block.ApplyBlock, h]
  · intro h
    constructor
    · simp [Block.ApplyBlockR, h]
    · intro c
      simp [Block.ApplyBlockR, h]
  · intro h
    constructor
    · simp [Block.ApplyBlockR, h]
    · intro c
      simp [Block.ApplyBlockR, h]

/-- Witness for C5 at the batch where both partitions are empty. -/
theorem empty_partition_neutral_witness :
    (bUnit.ApplyBlock [] []).ReadRes = emptyResult ∧
    (bUnit.ApplyBlock [] []).WriteRes = emptyResult ∧
    (bUnit.ApplyBlockR [] []).ReadRes = emptyResultR ∧
    (bUnit.ApplyBlockR [] []).WriteRes = emptyResultR := by
  obtain ⟨h1, h2, h3, h4, _⟩ := empty_partition_neutral bUnit [] [] [] []
  exact ⟨(h1 rfl).1, (h2 rfl).1, (h3 rfl).1, (h4 rfl).1⟩

/-- C6: when every sequence is Reading, the step's outputs are the
reader cell's outputs on the full batch in original order, and the
result does not depend on the writer cell. -/
theorem all_reading_degeneracy {σ γ ρ δ : Type} (b : Block σ γ ρ δ)
    (hR : Cell.Good b.Reader)
    (s : List (blockState σ)) (inp : List Vec)
    (hlen : inp.length = s.length)
    (hall : ∀ x ∈ s, x.Reading = true) :
    (b.ApplyBlock s inp).OutVecs =
      (b.Reader.ApplyBlock (s.map fun x => x.State) inp).Outputs ∧
    ∀ c, ({ Reader := b.Reader, Writer := c } : Block σ γ ρ δ).ApplyBlock s inp
      = b.ApplyBlock s inp := by
  have hflags : ∀ p ∈ (s.map fun x => x.Reading), p = true := by
    intro p hp
    obtain ⟨x, hx, rfl⟩ := List.mem_map.mp hp
    exact hall x hx
  have hfI : (s.map fun x => x.Reading).length = inp.length := by
    simp [hlen]
  have hfS : (s.map fun x => x.Reading).length = (s.map fun x => x.State).length := by
    simp
  have hsplI := splitReadWrite_allTrue (s.map fun x => x.Reading) inp hflags hfI
  have hsplS := splitReadWrite_allTrue (s.map fun x => x.Reading)
    (s.map fun x => x.State) hflags hfS
  constructor
  · by_cases hni : 0 < inp.length
    · have hout : (b.Reader.ApplyBlock (s.map fun x => x.State) inp).Outputs.length
          = (s.map fun x => x.Reading).length := by
        rw [(hR (s.map fun x => x.State) inp (by simp [hlen])).1, hfI]
      have hjoin := joinReadWrite_allTrue (s.map fun x => x.Reading)
        (b.Reader.ApplyBlock (s.map fun x => x.State) inp).Outputs hflags hout
      simp [Block.ApplyBlock, hsplI, hsplS, hni, emptyResult, hjoin]
    · have hinp : inp = [] := by
        cases inp with
        | nil => rfl
        | cons a t => simp at hni
      have hs : s = [] := by
        cases s with
        | nil => rfl
        | cons a t =>
          rw [hinp] at hlen
          simp at hlen
      subst hinp
      subst hs
      have h0 := (hR [] [] rfl).1
      simp only [List.length_nil] at h0
      have h0' : (b.Reader.ApplyBlock [] []).Outputs = [] :=
        List.length_eq_zero.mp h0
      simp [Block.ApplyBlock, splitReadWrite, joinReadWrite, emptyResult, h0']
  · intro c
    have hw : (splitReadWrite (s.map fun x => x.Reading) inp).2 = [] := by
      rw [hsplI]
    simp [Block.ApplyBlock, hw]

/-- Witness for C6 on a single all-Reading sequence. -/
theorem all_reading_degeneracy_witness :
    (bUnit.ApplyBlock [{ Reading := true, State := () }] [[(2 : ℚ)]]).OutVecs =
      (bUnit.Reader.ApplyBlock [()] [[(2 : ℚ)]]).Outputs := by
  have h := (all_reading_degeneracy bUnit idCell_good
    [{ Reading := true, State := () }] [[(2 : ℚ)]] rfl (by decide)).1
  simpa using h

lemma applyBlock_propagate_eq {σ γ ρ δ : Type} (b : Block σ γ ρ δ)
    (s : List (blockState σ)) (inp : List Vec) (u : List Vec) (sg : List γ) :
    (b.ApplyBlock s inp).PropagateGradient u sg =
      joinReadWrite (s.map fun x => x.Reading)
        ((b.ApplyBlock s inp).ReadRes.PropagateGradient
          (splitReadWrite (s.map fun x => x.Reading) u).1
          (splitReadWrite (s.map fun x => x.Reading) sg).1)
        ((b.ApplyBlock s inp).WriteRes.PropagateGradient
          (splitReadWrite (s.map fun x => x.Reading) u).2
          (splitReadWrite (s.map fun x => x.Reading) sg).2) := rfl

lemma applyBlock_readDown_length {σ γ ρ δ : Type} (b : Block σ γ ρ δ)
    (hR : Cell.Good b.Reader)
    (s : List (blockState σ)) (inp : List Vec) (u : List Vec) (sg : List γ)
    (hlen : inp.length = s.length) (hu : u.length = s.length)
    (hsg : sg.length = s.length) :
    ((b.ApplyBlock s inp).ReadRes.PropagateGradient
        (splitReadWrite (s.map fun x => x.Reading) u).1
        (splitReadWrite (s.map fun x => x.Reading) sg).1).length =
      ((s.map fun x => x.Reading).filter id).length := by
  have hfS : (s.map fun x => x.Reading).length = (s.map fun x => x.State).length := by simp
  have hfI : (s.map fun x => x.Reading).length = inp.length := by simp [hlen]
  have hfU : (s.map fun x => x.Reading).length = u.length := by simp [hu]
  have hfG : (s.map fun x => x.Reading).length = sg.length := by simp [hsg]
  have hS := splitReadWrite_length (s.map fun x => x.Reading) (s.map fun x => x.State) hfS
  have hI := splitReadWrite_length (s.map fun x => x.Reading) inp hfI
  have hU := splitReadWrite_length (s.map fun x => x.Reading) u hfU
  have hG := splitReadWrite_length (s.map fun x => x.Reading) sg hfG
  by_cases hr : 0 < (splitReadWrite (s.map fun x => x.Reading) inp).1.length
  · simp only [Block.ApplyBlock, if_pos hr]
    have hpre : (splitReadWrite (s.map fun x => x.Reading) (s.map fun x => x.State)).1.length
        = (splitReadWrite (s.map fun x => x.Reading) inp).1.length := by
      rw [hS.1, hI.1]
    have := (hR _ _ hpre).2.2
      (splitReadWrite (s.map fun x => x.Reading) u).1
      (splitReadWrite (s.map fun x => x.Reading) sg).1
      (by rw [hU.1, hI.1]) (by rw [hG.1, hS.1])
    rw [this, hS.1]
  · simp only [Block.ApplyBlock, if_neg hr]
    simp only [emptyResult]
    rw [show ([] : List γ).length = 0 from rfl, ← hI.1]
    omega

lemma applyBlock_writeDown_length {σ γ ρ δ : Type} (b : Block σ γ ρ δ)
    (hW : Cell.Good b.Writer)
    (s : List (blockState σ)) (inp : List Vec) (u : List Vec) (sg : List γ)
    (hlen : inp.length = s.length) (hu : u.length = s.length)
    (hsg : sg.length = s.length) :
    ((b.ApplyBlock s inp).WriteRes.PropagateGradient
        (splitReadWrite (s.map fun x => x.Reading) u).2
        (splitReadWrite (s.map fun x => x.Reading) sg).2).length =
      ((s.map fun x => x.Reading).filter (fun c => !c)).length := by
  have hfS : (s.map fun x => x.Reading).length = (s.map fun x => x.State).length := by simp
  have hfI : (s.map fun x => x.Reading).length = inp.length := by simp [hlen]
  have hfU : (s.map fun x => x.Reading).length = u.length := by simp [hu]
  have hfG : (s.map fun x => x.Reading).length = sg.length := by simp [hsg]
  have hS := splitReadWrite_length (s.map fun x => x.Reading) (s.map fun x => x.State) hfS
  have hI := splitReadWrite_length (s.map fun x => x.Reading) inp hfI
  have hU := splitReadWrite_length (s.map fun x => x.Reading) u hfU
  have hG := splitReadWrite_length (s.map fun x => x.Reading) sg hfG
  by_cases hw : 0 < (splitReadWrite (s.map fun x => x.Reading) inp).2.length
  · simp only [Block.ApplyBlock, if_pos hw]
    have hpre : (splitReadWrite (s.map fun x => x.Reading) (s.map fun x => x.State)).2.length
        = (splitReadWrite (s.map fun x => x.Reading) inp).2.length := by
      rw [hS.2, hI.2]
    have := (hW _ _ hpre).2.2
      (splitReadWrite (s.map fun x => x.Reading) u).2
      (splitReadWrite (s.map fun x => x.Reading) sg).2
      (by rw [hU.2, hI.2]) (by rw [hG.2, hS.2])
    rw [this, hS.2]
  · simp only [Block.ApplyBlock, if_neg hw]
    simp only [emptyResult]
    rw [show ([] : List γ).length = 0 from rfl, ← hI.2]
    omega

/-- C7: the state-gradient batch returned by
`blockResult.PropagateGradient` has the same length as the forward
state batch, and entry `i` is the gradient the sub-cell handling
sequence `i` returned at exactly the rank where sequence `i`'s forward
state was placed by the split. -/
theorem propagate_gradient_alignment {σ γ ρ δ : Type} (b : Block σ γ ρ δ)
    (hR : Cell.Good b.Reader) (hW : Cell.Good b.Writer)
    (s : List (blockState σ)) (inp : List Vec) (u : List Vec) (sg : List γ)
    (hlen : inp.length = s.length) (hu : u.length = s.length)
    (hsg : sg.length = s.length) :
    ((b.ApplyBlock s inp).PropagateGradient u sg).length = s.length ∧
    ∀ i x, s[i]? = some x →
      (x.Reading = true →
        ((b.ApplyBlock s inp).PropagateGradient u sg)[i]? =
          ((b.ApplyBlock s inp).ReadRes.PropagateGradient
            (splitReadWrite (s.map fun t => t.Reading) u).1
            (splitReadWrite (s.map fun t => t.Reading) sg).1)[rankT (s.map fun t => t.Reading) i]? ∧
        (splitReadWrite (s.map fun t => t.Reading)
          (s.map fun t => t.State)).1[rankT (s.map fun t => t.Reading) i]? = some x.State) ∧
      (x.Reading = false →
        ((b.ApplyBlock s inp).PropagateGradient u sg)[i]? =
          ((b.ApplyBlock s inp).WriteRes.PropagateGradient
            (splitReadWrite (s.map fun t => t.Reading) u).2
            (splitReadWrite (s.map fun t => t.Reading) sg).2)[rankF (s.map fun t => t.Reading) i]? ∧
        (splitReadWrite (s.map fun t => t.Reading)
          (s.map fun t => t.State)).2[rankF (s.map fun t => t.Reading) i]? = some x.State) := by
  have hrd := applyBlock_readDown_length b hR s inp u sg hlen hu hsg
  have hwd := applyBlock_writeDown_length b hW s inp u sg hlen hu hsg
  have hfS : (s.map fun x => x.Reading).length = (s.map fun x => x.State).length := by simp
  constructor
  · rw [applyBlock_propagate_eq,
      joinReadWrite_length (s.map fun x => x.Reading) _ _ hrd hwd]
    simp
  · intro i x hx
    have hflag : (s.map fun t => t.Reading)[i]? = some x.Reading := by
      rw [List.getElem?_map, hx]
      rfl
    have hjoin := joinReadWrite_getElem? (s.map fun x => x.Reading) _ _ hrd hwd i
    rw [applyBlock_propagate_eq]
    constructor
    · intro hxr
      rw [hxr] at hflag
      constructor
      · rw [hjoin, hflag]
      · have := splitReadWrite_fst_getElem? (s.map fun t => t.Reading)
          (s.map fun t => t.State) hfS i hflag
        rw [this, List.getElem?_map, hx]
        rfl
    · intro hxr
      rw [hxr] at hflag
      constructor
      · rw [hjoin, hflag]
      · have := splitReadWrite_snd_getElem? (s.map fun t => t.Reading)
          (s.map fun t => t.State) hfS i hflag
        rw [this, List.getElem?_map, hx]
        rfl

/-- Witness for C7 with a singleton batch. -/
theorem propagate_gradient_alignment_witness :
    ((bUnit.ApplyBlock [{ Reading := true, State := () }]
      [[(1 : ℚ)]]).PropagateGradient [[(5 : ℚ)]] [()]).length = 1 :=
  (propagate_gradient_alignment bUnit idCell_good idCell_good
    [{ Reading := true, State := () }] [[(1 : ℚ)]] [[(5 : ℚ)]] [()]
    rfl rfl rfl).1

/-- C4 evidence: the skip guard `x < 0 || x > 128` does not skip the
out-of-range character 128, so `Block.Query` reaches the strict
one-hot encoder on it and fails, while the (also out-of-range)
character 200 is skipped and an empty query succeeds. -/
theorem query_char128_not_skipped :
    bUnit.Query [128] = none ∧
    feedQuery bUnit bUnit.StartState [200] = some bUnit.StartState ∧
    oneHotVector 128 = none ∧
    bUnit.Query [200] = bUnit.Query [] :=
  ⟨rfl, rfl, rfl, rfl⟩

lemma argmax_lt : ∀ (v : List ℚ), v ≠ [] → argmax v < v.length
  | [], h => absurd rfl h
  | [x], _ => by simp [argmax]
  | x :: y :: t, _ => by
    by_cases h : x < maxVal (y :: t)
    · have := argmax_lt (y :: t) (by simp)
      simp only [argmax, if_pos h, List.length_cons] at this ⊢
      omega
    · simp [argmax, h]

lemma queryLoopF_sound {σ γ ρ δ : Type} (b : Block σ γ ρ δ) :
    ∀ (fuel : Nat) (st : blockState σ) (lastOut : Nat) (res : List Nat)
      (r : List Nat), queryLoopF b fuel st lastOut res = some r →
      ∃ t, r = res ++ t ∧ res.length + t.length ≤ max maxResponseLen res.length ∧
        ∀ x ∈ t, x ≠ Terminator
  | 0, st, lastOut, res, r, h => by
    injection h with h
    exact ⟨[], by simp [h], by simp, by simp⟩
  | fuel + 1, st, lastOut, res, r, h => by
    rw [queryLoopF] at h
    cases hv : oneHotVector (lastOut : Int) with
    | none =>
      rw [hv] at h
      cases h
    | some v =>
      rw [hv] at h
      simp only at h
      by_cases hg : argmax (b.StepTime st v).2 = 0 ∨ maxResponseLen ≤ res.length
      · rw [if_pos hg] at h
        injection h with h
        exact ⟨[], by simp [h], by simp, by simp⟩
      · rw [if_neg hg] at h
        push_neg at hg
        obtain ⟨t, ht, hb, hne⟩ := queryLoopF_sound b fuel (b.StepTime st v).1
          (argmax (b.StepTime st v).2) (res ++ [argmax (b.StepTime st v).2]) r h
        refine ⟨argmax (b.StepTime st v).2 :: t, by simp [ht], ?_, ?_⟩
        · simp only [List.length_append, List.length_cons] at hb ⊢
          omega
        · intro x hx
          rcases List.mem_cons.mp hx with rfl | hx
          · exact hg.1
          · exact hne x hx

lemma queryLoopF_decode {σ γ ρ δ : Type} (b : Block σ γ ρ δ)
    (hout : ∀ st v, v.length = CharCount → ((b.StepTime st v).2).length = CharCount) :
    ∀ (fuel : Nat) (st : blockState σ) (lastOut : Nat) (res : List Nat),
      lastOut < CharCount → maxResponseLen + 1 - res.length ≤ fuel →
      queryLoopF b fuel st lastOut res =
        some (res ++ decodeSpec b st lastOut (maxResponseLen - res.length))
  | 0, st, lastOut, res, hlast, hfuel => by
    have h1 : maxResponseLen - res.length = 0 := by omega
    rw [queryLoopF, h1, decodeSpec]
    simp
  | fuel + 1, st, lastOut, res, hlast, hfuel => by
    obtain ⟨v, hv⟩ : ∃ v, oneHotVector (lastOut : Int) = some v :=
      ⟨_, oneHotVector_nat_some lastOut hlast⟩
    have hvlen : v.length = CharCount := oneHotVector_length _ v hv
    have hplen : ((b.StepTime st v).2).length = CharCount := hout st v hvlen
    rw [queryLoopF, hv]
    simp only
    by_cases hcap : maxResponseLen ≤ res.length
    · have h1 : maxResponseLen - res.length = 0 := by omega
      rw [if_pos (Or.inr hcap), h1, decodeSpec]
      simp
    · obtain ⟨k, hk⟩ : ∃ k, maxResponseLen - res.length = k + 1 :=
        ⟨maxResponseLen - res.length - 1, by omega⟩
      by_cases hz : argmax (b.StepTime st v).2 = 0
      · rw [if_pos (Or.inl hz), hk, decodeSpec]
        simp only [hv, Option.getD_some]
        rw [if_pos hz]
        simp
      · rw [if_neg (by tauto)]
        have hnext : argmax (b.StepTime st v).2 < CharCount := by
          have hne : (b.StepTime st v).2 ≠ [] := by
            intro hp
            rw [hp] at hplen
            simp [CharCount] at hplen
          have := argmax_lt (b.StepTime st v).2 hne
          omega
        have ih := queryLoopF_decode b hout fuel (b.StepTime st v).1
          (argmax (b.StepTime st v).2) (res ++ [argmax (b.StepTime st v).2])
          hnext (by simp only [List.length_append, List.length_cons]; omega)
        rw [ih, hk, decodeSpec]
        simp only [hv, Option.getD_some]
        rw [if_neg hz]
        have hklen : maxResponseLen - (res ++ [argmax (b.StepTime st v).2]).length = k := by
          simp only [List.length_append, List.length_cons, List.length_nil]
          omega
        rw [hklen]
        simp

/-- C9: a successful `Block.Query` result holds at most
`maxResponseLen` symbols, never holds the Terminator, and (for a block
whose steps keep vectors at `CharCount` entries) is exactly the
spec's feed-back-and-collect decode process run after the query and
one terminator have been fed. -/
theorem query_decode {σ γ ρ δ : Type} (b : Block σ γ ρ δ)
    (hout : ∀ st v, v.length = CharCount → ((b.StepTime st v).2).length = CharCount)
    (q : List Int) :
    (∀ r, b.Query q = some r →
      r.length ≤ maxResponseLen ∧ ∀ x ∈ r, x ≠ Terminator) ∧
    ∀ st, feedQuery b b.StartState q = some st →
      b.Query q = some (decodeSpec b
        (b.StepTime st ((oneHotVector ((Terminator : Nat) : Int)).getD [])).1
        Terminator maxResponseLen) := by
  have hterm : oneHotVector ((Terminator : Nat) : Int) =
      some ((List.range CharCount).map fun (i : Nat) =>
        if (i : Int) = ((Terminator : Nat) : Int) then (1 : ℚ) else 0) :=
    oneHotVector_nat_some Terminator (by decide)
  constructor
  · intro r hr
    rw [Block.Query] at hr
    cases hfeed : feedQuery b b.StartState q with
    | none =>
      rw [hfeed] at hr
      cases hr
    | some st =>
      rw [hfeed, hterm] at hr
      simp only at hr
      obtain ⟨t, ht, hb, hne⟩ := queryLoopF_sound b (maxResponseLen + 1) _ Terminator [] r hr
      subst ht
      constructor
      · simpa using hb
      · simpa using hne
  · intro st hfeed
    rw [Block.Query, hfeed, hterm]
    simp only
    have := queryLoopF_decode b hout (maxResponseLen + 1)
      (b.StepTime st ((List.range CharCount).map fun (i : Nat) =>
        if (i : Int) = ((Terminator : Nat) : Int) then (1 : ℚ) else 0)).1
      Terminator [] (by decide) (by simp)
    rw [this]
    simp

lemma bUnit_step_len :
    ∀ (st : blockState Unit) (v : Vec), v.length = CharCount →
      ((bUnit.StepTime st v).2).length = CharCount := by
  intro st v hv
  cases st with
  | mk r inner =>
    cases r <;>
      simp [Block.StepTime, Block.ApplyBlock, bUnit, idCell, splitReadWrite,
        joinReadWrite, emptyResult, hv]

/-- Witness for C9: the empty query against the concrete block decodes
to exactly the spec process's output. -/
theorem query_decode_witness :
    bUnit.Query [] = some (decodeSpec bUnit
      (bUnit.StepTime bUnit.StartState
        ((oneHotVector ((Terminator : Nat) : Int)).getD [])).1
      Terminator maxResponseLen) :=
  (query_decode bUnit bUnit_step_len []).2 bUnit.StartState rfl
